import Mathlib

/-!
Verification of `puttylog2dieharder.py`: a converter that reads hex text
lines, emits a fixed dieharder header, then one decimal integer per
8-character hex chunk of each (stripped) input line.

The program is Python 2.  We embed it shallowly:
* strings are `List Char`;
* `split_by_n` is translated literally from the list comprehension over
  `range(0, len(line), n)`;
* `line.strip()` is modelled by `pyStrip` (drops leading *and* trailing
  Python whitespace);
* `int(word, 16)` is modelled by `pyInt16` with the Python 2 base-16 string
  grammar: optional surrounding whitespace, optional sign, optional
  `0x`/`0X` prefix, then one or more hex digits;
* `print >> output, v` is modelled by appending the decimal rendering of
  `v` and a newline to the output.
-/

namespace GeigerRNG

/-- The Python whitespace characters recognised by `str.strip()` and by
the surrounding-whitespace tolerance of `int()`. -/
def isPySpace (c : Char) : Bool :=
  decide (c ∈ [' ', '\t', '\n', '\r', '\x0b', '\x0c'])

/-- The hex digit alphabet: `0-9`, `a-f`, `A-F`. -/
def isHexDig (c : Char) : Bool :=
  decide (c ∈ ['a', 'b', 'c', 'd', 'e', 'f', 'A', 'B', 'C', 'D', 'E', 'F',
               '0', '1', '2', '3', '4', '5', '6', '7', '8', '9'])

/-- Numeric value of a hex digit (meaningful on the hex alphabet only). -/
def hexDigVal (c : Char) : Nat :=
  if c ≤ '9' then c.toNat - '0'.toNat
  else if c ≤ 'F' then c.toNat - 'A'.toNat + 10
  else c.toNat - 'a'.toNat + 10

/-- Translation of `split_by_n(line, n)` from the source:
`[line[i:i+n] for i in range(0, len(line), n)]`.
`range(0, L, n)` has `⌈L / n⌉` elements for `n > 0`, and the slice
`line[i:i+n]` is `(line.drop i).take n`. -/
def split_by_n (line : List Char) (n : Nat) : List (List Char) :=
  (List.range' 0 ((line.length + n - 1) / n) n).map
    (fun i => (line.drop i).take n)

/-- Recursive characterisation of `split_by_n _ 8`, used for proofs. -/
def chunks8 : List Char → List (List Char)
  | [] => []
  | c :: cs => ((c :: cs).take 8) :: chunks8 (cs.drop 7)
termination_by l => l.length
decreasing_by
  simp [List.length_drop]
  omega

/-- Model of the Python `line.strip()` call: removes leading and trailing
whitespace. -/
def pyStrip (l : List Char) : List Char :=
  ((l.dropWhile isPySpace).reverse.dropWhile isPySpace).reverse

/-- Optional sign at the front of an integer literal. -/
def dropSign (l : List Char) : Int × List Char :=
  match l with
  | [] => (1, [])
  | c :: r =>
    if c = '+' then (1, r) else if c = '-' then (-1, r) else (1, c :: r)

/-- Optional `0x` / `0X` prefix of a base-16 integer literal. -/
def dropHexMarker (l : List Char) : List Char :=
  match l with
  | c0 :: c1 :: r =>
    if c0 = '0' ∧ (c1 = 'x' ∨ c1 = 'X') then r else c0 :: c1 :: r
  | l => l

/-- Base-16 value of a digit string, most significant digit first. -/
def hexVal (ds : List Char) : Nat :=
  ds.foldl (fun a c => a * 16 + hexDigVal c) 0

/-- Model of the Python 2 `int(s, 16)` call: optional leading whitespace, optional
sign, optional `0x`/`0X` prefix, one or more hex digits, optional trailing
whitespace; anything else raises `ValueError` (modelled as `none`). -/
def pyInt16 (s : List Char) : Option Int :=
  let t := s.dropWhile isPySpace
  let p := dropSign t
  let u := dropHexMarker p.2
  let ds := u.takeWhile isHexDig
  let rest := u.dropWhile isHexDig
  if ds = [] then none
  else if rest.all isPySpace then some (p.1 * (hexVal ds : Int)) else none

/-- Decimal digit string of a natural number, as printed by Python. -/
def decDigits (n : Nat) : List Char :=
  if n < 10 then [Nat.digitChar n]
  else decDigits (n / 10) ++ [Nat.digitChar (n % 10)]
termination_by n
decreasing_by
  exact Nat.div_lt_self (by omega) (by omega)

/-- Model of the Python `str` rendering of an integer. -/
def pyIntStr (v : Int) : List Char :=
  if v < 0 then '-' :: decDigits v.natAbs else decDigits v.toNat

/-- The header text written by the first `print` statement: the
triple-quoted literal (whose own last character is a newline) followed by
the newline appended by `print`, producing the trailing blank line. -/
def bannerLine : List Char :=
  '#' :: List.replicate 66 '='

def headerText : List Char :=
  bannerLine ++ '\n' :: ("# generator ryangeiger  seed = 0").toList
    ++ '\n' :: bannerLine ++ ("\ntype: d\nnumbit: 32\n\n").toList

/-- Run the inner loop on the chunks of one line: emit one integer per
chunk until a chunk fails to parse; a failure is returned together with
the offending chunk and stops everything. -/
def processChunks : List (List Char) → List Int × Option (List Char)
  | [] => ([], none)
  | c :: cs =>
    match pyInt16 c with
    | none => ([], some c)
    | some v =>
      let r := processChunks cs
      (v :: r.1, r.2)

/-- The chunk sequence the program processes for one input line. -/
def lineChunks (l : List Char) : List (List Char) :=
  split_by_n (pyStrip l) 8

/-- Run the outer loop: lines in input order; an uncaught parse failure
aborts the whole run. -/
def processLines : List (List Char) → List Int × Option (List Char)
  | [] => ([], none)
  | l :: ls =>
    let r := processChunks (lineChunks l)
    match r.2 with
    | some c => (r.1, some c)
    | none =>
      let r2 := processLines ls
      (r.1 ++ r2.1, r2.2)

/-- Text written for the emitted integers: one per line. -/
def outIntsText (vs : List Int) : List Char :=
  (vs.map (fun v => pyIntStr v ++ ['\n'])).flatten

/-- Everything `main` writes to the output sink (header first, then the
integers emitted before any failure). -/
def mainOut (lines : List (List Char)) : List Char :=
  headerText ++ outIntsText (processLines lines).1

/-- The failure status of a run: `some c` when chunk `c` raised an
uncaught `ValueError` (non-zero exit), `none` on success. -/
def mainErr (lines : List (List Char)) : Option (List Char) :=
  (processLines lines).2

/-- Spec-side value of a chunk "interpreted as a base-16 unsigned
integer": the standard positional interpretation of its digit values. -/
def specHexValue (c : List Char) : Nat :=
  Nat.ofDigits 16 ((c.map hexDigVal).reverse)

/-- Spec-side stripping as the spec words it: only *trailing* whitespace
is removed. -/
def specRStrip (l : List Char) : List Char :=
  (l.reverse.dropWhile isPySpace).reverse

/-! ### The slice-comprehension form of `split_by_n` agrees with its
recursive characterisation. -/

lemma split_by_n_eq_chunks8 (l : List Char) : split_by_n l 8 = chunks8 l := by
  induction l using chunks8.induct with
  | case1 => simp [split_by_n, chunks8]
  | case2 c cs ih =>
    have hlen : ((c :: cs).length + 8 - 1) / 8
        = ((cs.drop 7).length + 8 - 1) / 8 + 1 := by
      simp only [List.length_cons, List.length_drop]
      omega
    rw [chunks8, ← ih]
    unfold split_by_n
    rw [hlen, List.range'_succ, List.map_cons, List.drop_zero]
    congr 1
    have hsh : List.range' (0 + 8) (((cs.drop 7).length + 8 - 1) / 8) 8
        = (List.range' 0 (((cs.drop 7).length + 8 - 1) / 8) 8).map (8 + ·) :=
      (List.map_add_range' 8 0 _ 8).symm
    rw [hsh, List.map_map]
    apply List.map_congr_left
    intro i _
    show (List.drop (8 + i) (c :: cs)).take 8 = (List.drop i (cs.drop 7)).take 8
    rw [List.drop_drop]
    have h8 : 8 + i = (7 + i) + 1 := by omega
    rw [h8, List.drop_succ_cons]

lemma chunks8_eq_nil_iff (l : List Char) : chunks8 l = [] ↔ l = [] := by
  cases l with
  | nil => simp [chunks8]
  | cons c cs => simp [chunks8]

lemma chunks8_flatten (l : List Char) : (chunks8 l).flatten = l := by
  induction l using chunks8.induct with
  | case1 => simp [chunks8]
  | case2 c cs ih =>
    rw [chunks8, List.flatten_cons, ih]
    have h8 : cs.drop 7 = List.drop 8 (c :: cs) := rfl
    rw [h8, List.take_append_drop]

lemma chunks8_length (l : List Char) :
    (chunks8 l).length = (l.length + 7) / 8 := by
  induction l using chunks8.induct with
  | case1 => simp [chunks8]
  | case2 c cs ih =>
    rw [chunks8, List.length_cons, ih]
    simp only [List.length_drop, List.length_cons]
    omega

lemma mem_chunks8_ne_nil {l c : List Char} (h : c ∈ chunks8 l) : c ≠ [] := by
  induction l using chunks8.induct with
  | case1 => simp [chunks8] at h
  | case2 a as ih =>
    rw [chunks8, List.mem_cons] at h
    rcases h with h | h
    · subst h
      simp
    · exact ih h

lemma mem_chunks8_length_le {l c : List Char} (h : c ∈ chunks8 l) :
    c.length ≤ 8 := by
  induction l using chunks8.induct with
  | case1 => simp [chunks8] at h
  | case2 a as ih =>
    rw [chunks8, List.mem_cons] at h
    rcases h with h | h
    · subst h
      simp
    · exact ih h

lemma mem_chunks8_subset {l c : List Char} (h : c ∈ chunks8 l) :
    ∀ a ∈ c, a ∈ l := by
  induction l using chunks8.induct with
  | case1 => simp [chunks8] at h
  | case2 a as ih =>
    rw [chunks8, List.mem_cons] at h
    intro x hx
    rcases h with h | h
    · subst h
      exact List.mem_of_mem_take hx
    · exact List.mem_cons_of_mem a (List.mem_of_mem_drop (ih h x hx))

lemma chunks8_dropLast_length {l : List Char} :
    ∀ c ∈ (chunks8 l).dropLast, c.length = 8 := by
  induction l using chunks8.induct with
  | case1 => simp [chunks8]
  | case2 a as ih =>
    rw [chunks8]
    by_cases hnil : chunks8 (as.drop 7) = []
    · rw [hnil]
      simp
    · rw [List.dropLast_cons_of_ne_nil hnil]
      intro c hc
      rcases List.mem_cons.mp hc with h | h
      · subst h
        have hlong : as.drop 7 ≠ [] := hnil ∘ (chunks8_eq_nil_iff _).mpr
        have : 7 < as.length := by
          by_contra hle
          exact hlong (List.drop_eq_nil_of_le (by omega))
        simp only [List.length_take, List.length_cons]
        omega
      · exact ih c h

/-! ### Character classes -/

lemma isHexDig_iff (c : Char) :
    isHexDig c = true ↔
      c ∈ ['a', 'b', 'c', 'd', 'e', 'f', 'A', 'B', 'C', 'D', 'E', 'F',
           '0', '1', '2', '3', '4', '5', '6', '7', '8', '9'] := by
  simp [isHexDig]

lemma hexChar_props {c : Char} (h : isHexDig c = true) :
    hexDigVal c < 16 ∧ isPySpace c = false ∧
      c ≠ '+' ∧ c ≠ '-' ∧ c ≠ 'x' ∧ c ≠ 'X' := by
  rw [isHexDig_iff] at h
  fin_cases h <;> decide

lemma hexChar_toLower {c : Char} (h : isHexDig c = true) :
    isHexDig c.toLower = true ∧ hexDigVal c.toLower = hexDigVal c := by
  rw [isHexDig_iff] at h
  fin_cases h <;> decide

/-! ### Bounds and the positional reading of `hexVal` -/

lemma hexVal_foldl_bound (ds : List Char) (a : Nat)
    (h : ∀ c ∈ ds, isHexDig c = true) :
    List.foldl (fun a c => a * 16 + hexDigVal c) a ds
      < (a + 1) * 16 ^ ds.length := by
  induction ds generalizing a with
  | nil => simp
  | cons c cs ih =>
    simp only [List.foldl_cons, List.length_cons]
    have hc : hexDigVal c < 16 := (hexChar_props (h c (by simp))).1
    have hcs : ∀ x ∈ cs, isHexDig x = true := fun x hx => h x (by simp [hx])
    have h1 := ih (a * 16 + hexDigVal c) hcs
    have h2 : (a * 16 + hexDigVal c + 1) * 16 ^ cs.length
        ≤ (a + 1) * 16 ^ (cs.length + 1) := by
      have hle : a * 16 + hexDigVal c + 1 ≤ (a + 1) * 16 := by omega
      calc (a * 16 + hexDigVal c + 1) * 16 ^ cs.length
          ≤ ((a + 1) * 16) * 16 ^ cs.length :=
            Nat.mul_le_mul_right _ hle
        _ = (a + 1) * 16 ^ (cs.length + 1) := by ring
    exact lt_of_lt_of_le h1 h2

lemma hexVal_lt (ds : List Char) (h : ∀ c ∈ ds, isHexDig c = true) :
    hexVal ds < 16 ^ ds.length := by
  have := hexVal_foldl_bound ds 0 h
  simpa [hexVal] using this

lemma hexVal_append_digit (ds : List Char) (c : Char) :
    hexVal (ds ++ [c]) = hexVal ds * 16 + hexDigVal c := by
  simp [hexVal, List.foldl_append]

lemma hexVal_eq_specHexValue (ds : List Char) :
    hexVal ds = specHexValue ds := by
  induction ds using List.reverseRecOn with
  | nil => simp [hexVal, specHexValue]
  | append_singleton xs x ih =>
    rw [hexVal_append_digit, specHexValue]
    simp only [List.map_append, List.map_cons, List.map_nil,
      List.reverse_append, List.reverse_cons, List.reverse_nil,
      List.nil_append, List.cons_append]
    rw [Nat.ofDigits_cons]
    rw [specHexValue] at ih
    omega

/-! ### `pyInt16` on all-hex chunks -/

lemma takeWhile_eq_self_of_all {p : Char → Bool} {l : List Char}
    (h : ∀ c ∈ l, p c = true) : l.takeWhile p = l ∧ l.dropWhile p = [] := by
  induction l with
  | nil => simp
  | cons c cs ih =>
    have hc : p c = true := h c (by simp)
    have hcs : ∀ x ∈ cs, p x = true := fun x hx => h x (by simp [hx])
    simp [List.takeWhile_cons, List.dropWhile_cons, hc, ih hcs]

lemma pyInt16_hex {ds : List Char} (hne : ds ≠ [])
    (h : ∀ c ∈ ds, isHexDig c = true) :
    pyInt16 ds = some ((hexVal ds : Int)) := by
  obtain ⟨d, ds', rfl⟩ := List.exists_cons_of_ne_nil hne
  have hd : isHexDig d = true := h d (by simp)
  have hp := hexChar_props hd
  have h1 : (d :: ds').dropWhile isPySpace = d :: ds' := by
    rw [List.dropWhile_cons]
    simp [hp.2.1]
  have h2 : dropSign (d :: ds') = (1, d :: ds') := by
    simp [dropSign, hp.2.2.1, hp.2.2.2.1]
  have h3 : dropHexMarker (d :: ds') = d :: ds' := by
    cases ds' with
    | nil => rfl
    | cons c1 r =>
      have hc1 := hexChar_props (h c1 (by simp))
      simp [dropHexMarker, hc1.2.2.2.2.1, hc1.2.2.2.2.2]
  have h4 := takeWhile_eq_self_of_all h
  simp [pyInt16, h1, h2, h3, h4.1, h4.2]

/-! ### Characters a successfully parsed literal can contain -/

lemma dropSign_decomp (t : List Char) :
    (dropSign t).2 = t ∨
      ∃ c r, (c = '+' ∨ c = '-') ∧ t = c :: r ∧ (dropSign t).2 = r := by
  cases t with
  | nil => left; rfl
  | cons c r =>
    by_cases h1 : c = '+'
    · right; exact ⟨c, r, Or.inl h1, rfl, by simp [dropSign, h1]⟩
    · by_cases h2 : c = '-'
      · right; exact ⟨c, r, Or.inr h2, rfl, by simp [dropSign, h1, h2]⟩
      · left; simp [dropSign, h1, h2]

lemma dropHexMarker_decomp (l : List Char) :
    dropHexMarker l = l ∨
      ∃ c1 r, (c1 = 'x' ∨ c1 = 'X') ∧ l = '0' :: c1 :: r ∧
        dropHexMarker l = r := by
  match l with
  | [] => left; rfl
  | [c] => left; rfl
  | c0 :: c1 :: r =>
    by_cases h : c0 = '0' ∧ (c1 = 'x' ∨ c1 = 'X')
    · right
      exact ⟨c1, r, h.2, by rw [h.1], by simp [dropHexMarker, h]⟩
    · left
      simp [dropHexMarker, h]

lemma pyInt16_chars_after_sign {p2 : List Char}
    (hrest : ((dropHexMarker p2).dropWhile isHexDig).all isPySpace = true) :
    ∀ ch ∈ p2, isPySpace ch = true ∨ isHexDig ch = true ∨
      ch = '+' ∨ ch = '-' ∨ ch = 'x' ∨ ch = 'X' := by
  intro ch hch
  rcases dropHexMarker_decomp p2 with hpre | ⟨c1, r, hc1, hp2, hr⟩
  · rw [← hpre] at hch
    rw [← List.takeWhile_append_dropWhile (p := isHexDig)
      (l := dropHexMarker p2)] at hch
    rcases List.mem_append.mp hch with h1 | h1
    · exact Or.inr (Or.inl (List.mem_takeWhile_imp h1))
    · exact Or.inl (List.all_eq_true.mp hrest ch h1)
  · rw [hp2] at hch
    rcases List.mem_cons.mp hch with rfl | hch2
    · exact Or.inr (Or.inl (by decide))
    rcases List.mem_cons.mp hch2 with rfl | hch3
    · rcases hc1 with rfl | rfl
      · exact Or.inr (Or.inr (Or.inr (Or.inr (Or.inl rfl))))
      · exact Or.inr (Or.inr (Or.inr (Or.inr (Or.inr rfl))))
    · rw [← hr] at hch3
      rw [← List.takeWhile_append_dropWhile (p := isHexDig)
        (l := dropHexMarker p2)] at hch3
      rcases List.mem_append.mp hch3 with h1 | h1
      · exact Or.inr (Or.inl (List.mem_takeWhile_imp h1))
      · exact Or.inl (List.all_eq_true.mp hrest ch h1)

lemma pyInt16_some_chars {s : List Char} {v : Int} (h : pyInt16 s = some v) :
    ∀ ch ∈ s, isPySpace ch = true ∨ isHexDig ch = true ∨
      ch = '+' ∨ ch = '-' ∨ ch = 'x' ∨ ch = 'X' := by
  have hrest : ((dropHexMarker (dropSign
      (s.dropWhile isPySpace)).2).dropWhile isHexDig).all isPySpace = true := by
    by_cases hd : (dropHexMarker (dropSign
        (s.dropWhile isPySpace)).2).takeWhile isHexDig = []
    · simp [pyInt16, hd] at h
    · by_cases ha : ((dropHexMarker (dropSign
          (s.dropWhile isPySpace)).2).dropWhile isHexDig).all isPySpace = true
      · exact ha
      · simp [pyInt16, hd, ha] at h
  intro ch hch
  rw [← List.takeWhile_append_dropWhile (p := isPySpace) (l := s)] at hch
  rcases List.mem_append.mp hch with hch | hch
  · exact Or.inl (List.mem_takeWhile_imp hch)
  rcases dropSign_decomp (s.dropWhile isPySpace) with hsg | ⟨c, r, hc, hts, hr⟩
  · rw [← hsg] at hch
    exact pyInt16_chars_after_sign hrest ch hch
  · rw [hts] at hch
    rcases List.mem_cons.mp hch with rfl | hch2
    · rcases hc with rfl | rfl
      · exact Or.inr (Or.inr (Or.inl rfl))
      · exact Or.inr (Or.inr (Or.inr (Or.inl rfl)))
    · rw [← hr] at hch2
      exact pyInt16_chars_after_sign hrest ch hch2

/-! ### Structure of `pyStrip` -/

lemma head?_dropWhile_false (p : Char → Bool) (l : List Char) :
    ∀ x, (l.dropWhile p).head? = some x → p x = false := by
  induction l with
  | nil => simp
  | cons c cs ih =>
    intro x hx
    rw [List.dropWhile_cons] at hx
    by_cases hc : p c = true
    · rw [if_pos hc] at hx
      exact ih x hx
    · rw [if_neg hc] at hx
      simp only [List.head?_cons, Option.some.injEq] at hx
      subst hx
      exact Bool.not_eq_true _ ▸ (Bool.eq_false_iff.mpr hc)

lemma pyStrip_decomp (l : List Char) :
    ∃ pre suf, (∀ c ∈ pre, isPySpace c = true) ∧
      (∀ c ∈ suf, isPySpace c = true) ∧ l = pre ++ pyStrip l ++ suf := by
  refine ⟨l.takeWhile isPySpace,
    ((l.dropWhile isPySpace).reverse.takeWhile isPySpace).reverse, ?_, ?_, ?_⟩
  · intro c hc
    exact List.mem_takeWhile_imp hc
  · intro c hc
    exact List.mem_takeWhile_imp (List.mem_reverse.mp hc)
  · conv_lhs => rw [← List.takeWhile_append_dropWhile (p := isPySpace) (l := l)]
    rw [List.append_assoc]
    congr 1
    conv_lhs => rw [← List.reverse_reverse (l.dropWhile isPySpace),
      ← List.takeWhile_append_dropWhile (p := isPySpace)
        (l := (l.dropWhile isPySpace).reverse)]
    rw [List.reverse_append]
    rfl

lemma pyStrip_head (l : List Char) :
    ∀ x, (pyStrip l).head? = some x → isPySpace x = false := by
  intro x hx
  have hne : pyStrip l ≠ [] := by
    intro h0
    rw [h0] at hx
    exact Option.noConfusion hx
  have hm : l.dropWhile isPySpace = pyStrip l
      ++ ((l.dropWhile isPySpace).reverse.takeWhile isPySpace).reverse := by
    have hdec := List.takeWhile_append_dropWhile (p := isPySpace)
      (l := (l.dropWhile isPySpace).reverse)
    calc l.dropWhile isPySpace
        = (l.dropWhile isPySpace).reverse.reverse := (List.reverse_reverse _).symm
      _ = (List.takeWhile isPySpace (l.dropWhile isPySpace).reverse
            ++ List.dropWhile isPySpace (l.dropWhile isPySpace).reverse).reverse := by
          rw [hdec]
      _ = (List.dropWhile isPySpace (l.dropWhile isPySpace).reverse).reverse
            ++ (List.takeWhile isPySpace (l.dropWhile isPySpace).reverse).reverse := by
          rw [List.reverse_append]
      _ = pyStrip l
            ++ ((l.dropWhile isPySpace).reverse.takeWhile isPySpace).reverse := rfl
  have hx2 : (l.dropWhile isPySpace).head? = some x := by
    rw [hm, List.head?_append_of_ne_nil _ hne]
    exact hx
  exact head?_dropWhile_false isPySpace l x hx2

lemma pyStrip_getLast (l : List Char) :
    ∀ x, (pyStrip l).getLast? = some x → isPySpace x = false := by
  intro x hx
  unfold pyStrip at hx
  rw [List.getLast?_reverse] at hx
  exact head?_dropWhile_false isPySpace _ x hx

/-! ### Decimal rendering -/

lemma decDigits_ne_nil (n : Nat) : decDigits n ≠ [] := by
  rw [decDigits]
  split <;> simp

lemma decDigits_mem_digits (n : Nat) :
    ∀ x ∈ decDigits n, x ∈ ['0', '1', '2', '3', '4', '5', '6', '7', '8', '9'] := by
  induction n using decDigits.induct with
  | case1 n hlt =>
    rw [decDigits, if_pos hlt]
    intro x hx
    rcases List.mem_singleton.mp hx with rfl
    interval_cases n <;> decide
  | case2 n hlt ih =>
    rw [decDigits, if_neg hlt]
    intro x hx
    rcases List.mem_append.mp hx with h | h
    · exact ih x h
    · rcases List.mem_singleton.mp h with rfl
      have hm : n % 10 < 10 := Nat.mod_lt _ (by omega)
      generalize hq : n % 10 = m at hm
      interval_cases m <;> decide

lemma decDigits_head_ne_zero (n : Nat) (h : n ≠ 0) :
    ∀ x, (decDigits n).head? = some x → x ≠ '0' := by
  induction n using decDigits.induct with
  | case1 n hlt =>
    rw [decDigits, if_pos hlt]
    intro x hx
    simp only [List.head?_cons, Option.some.injEq] at hx
    subst hx
    interval_cases n
    · exact absurd rfl h
    all_goals decide
  | case2 n hlt ih =>
    rw [decDigits, if_neg hlt]
    intro x hx
    rw [List.head?_append_of_ne_nil _ (decDigits_ne_nil _)] at hx
    exact ih (by omega) x hx

/-! ### The processing loops -/

lemma processChunks_ok (cs : List (List Char))
    (h : ∀ c ∈ cs, pyInt16 c ≠ none) :
    processChunks cs = (cs.map (fun c => (pyInt16 c).getD 0), none) := by
  induction cs with
  | nil => rfl
  | cons c cs ih =>
    have hc : pyInt16 c ≠ none := h c (by simp)
    obtain ⟨v, hv⟩ := Option.ne_none_iff_exists'.mp hc
    rw [processChunks, hv]
    rw [ih (fun x hx => h x (by simp [hx]))]
    simp [hv]

lemma processChunks_append_fail (cs1 : List (List Char)) (c : List Char)
    (cs2 : List (List Char)) (h1 : ∀ c' ∈ cs1, pyInt16 c' ≠ none)
    (hc : pyInt16 c = none) :
    processChunks (cs1 ++ c :: cs2)
      = (cs1.map (fun c' => (pyInt16 c').getD 0), some c) := by
  induction cs1 with
  | nil =>
    rw [List.nil_append, processChunks, hc]
    rfl
  | cons a as ih =>
    have ha : pyInt16 a ≠ none := h1 a (by simp)
    obtain ⟨v, hv⟩ := Option.ne_none_iff_exists'.mp ha
    rw [List.cons_append, processChunks, hv,
      ih (fun x hx => h1 x (by simp [hx]))]
    simp [hv]

lemma processLines_ok_append (pre rest : List (List Char))
    (h : ∀ l ∈ pre, (processChunks (lineChunks l)).2 = none) :
    processLines (pre ++ rest)
      = ((pre.map (fun l => (processChunks (lineChunks l)).1)).flatten
          ++ (processLines rest).1, (processLines rest).2) := by
  induction pre with
  | nil => simp
  | cons l ls ih =>
    have hl := h l (by simp)
    have hls : ∀ x ∈ ls, (processChunks (lineChunks x)).2 = none :=
      fun x hx => h x (by simp [hx])
    rw [List.cons_append]
    rw [processLines, hl, ih hls]
    simp [List.append_assoc]

lemma processChunks_all_some (cs : List (List Char)) (f : List Char → Int)
    (h : ∀ c ∈ cs, pyInt16 c = some (f c)) :
    processChunks cs = (cs.map f, none) := by
  induction cs with
  | nil => rfl
  | cons c cs ih =>
    rw [processChunks, h c (by simp), ih (fun x hx => h x (by simp [hx]))]
    rfl

lemma processChunks_hexline (l : List Char)
    (h : ∀ c ∈ pyStrip l, isHexDig c = true) :
    processChunks (lineChunks l)
      = ((lineChunks l).map (fun c => (specHexValue c : Int)), none) := by
  have hchunks : ∀ c ∈ lineChunks l,
      pyInt16 c = some ((specHexValue c : Int)) := by
    intro c hc
    have hc8 : c ∈ chunks8 (pyStrip l) := by
      rw [lineChunks, split_by_n_eq_chunks8] at hc
      exact hc
    have hh : ∀ a ∈ c, isHexDig a = true :=
      fun a ha => h a (mem_chunks8_subset hc8 a ha)
    rw [pyInt16_hex (mem_chunks8_ne_nil hc8) hh, hexVal_eq_specHexValue]
  exact processChunks_all_some _ _ hchunks

lemma processLines_hex (lines : List (List Char))
    (h : ∀ l ∈ lines, ∀ c ∈ pyStrip l, isHexDig c = true) :
    processLines lines
      = ((lines.map (fun l =>
          (lineChunks l).map (fun c => (specHexValue c : Int)))).flatten,
         none) := by
  induction lines with
  | nil => simp [processLines]
  | cons l ls ih =>
    have hl : ∀ c ∈ pyStrip l, isHexDig c = true := h l (by simp)
    have hls : ∀ x ∈ ls, ∀ c ∈ pyStrip x, isHexDig c = true :=
      fun x hx => h x (by simp [hx])
    rw [processLines, processChunks_hexline l hl, ih hls]
    simp

lemma processLines_singleton (l : List Char) :
    processLines [l]
      = ((processChunks (lineChunks l)).1, (processChunks (lineChunks l)).2) := by
  rw [processLines]
  cases hr : (processChunks (lineChunks l)).2 with
  | none => simp [hr, processLines]
  | some c => simp [hr]

lemma dropWhile_all_false {p : Char → Bool} {l : List Char}
    (h : ∀ c ∈ l, p c = false) : l.dropWhile p = l := by
  cases l with
  | nil => rfl
  | cons c cs =>
    rw [List.dropWhile_cons, if_neg]
    rw [h c (by simp)]
    simp

lemma pyStrip_no_space (l : List Char) (h : ∀ c ∈ l, isPySpace c = false) :
    pyStrip l = l := by
  rw [pyStrip, dropWhile_all_false h,
    dropWhile_all_false (fun c hc => h c (List.mem_reverse.mp hc)),
    List.reverse_reverse]

example : split_by_n ("123456780").toList 8 =
    [("12345678").toList, ("0").toList] := by decide

example : pyInt16 ("0000000A").toList = some 10 := by decide

example : pyInt16 ("0xAB").toList = some 171 := by decide

example : pyInt16 ("12G45678").toList = none := by decide

example : processLines [(" 123456780").toList] = ([305419896, 0], none) := by
  decide

example : decDigits 4294967295 = ("4294967295").toList := by
  simp [decDigits]
  decide

lemma digit_ne_hash {x : Char}
    (h : x ∈ ['0', '1', '2', '3', '4', '5', '6', '7', '8', '9']) :
    x ≠ '#' := by
  fin_cases h <;> decide

lemma pyIntStr_chars (v : Int) : ∀ c ∈ pyIntStr v, c ≠ '#' := by
  intro c hc
  rw [pyIntStr] at hc
  split at hc
  · rcases List.mem_cons.mp hc with rfl | hc2
    · decide
    · exact digit_ne_hash (decDigits_mem_digits _ c hc2)
  · exact digit_ne_hash (decDigits_mem_digits _ c hc)

lemma outIntsText_chars (vs : List Int) : ∀ c ∈ outIntsText vs, c ≠ '#' := by
  intro c hc
  rw [outIntsText, List.mem_flatten] at hc
  obtain ⟨piece, hp, hcp⟩ := hc
  obtain ⟨v, _, rfl⟩ := List.mem_map.mp hp
  rcases List.mem_append.mp hcp with h | h
  · exact pyIntStr_chars v c h
  · rcases List.mem_singleton.mp h with rfl
    decide

/-!
## Claim theorems
-/

/-- C10: for every string `s`, concatenating the chunks of
`split_by_n s 8` in order yields `s` exactly; every chunk except possibly
the last has length exactly 8; the last chunk of a non-empty `s` has
length between 1 and 8; and no chunk is ever the empty string. -/
theorem c10_split_props (s : List Char) :
    (split_by_n s 8).flatten = s
    ∧ (∀ c ∈ (split_by_n s 8).dropLast, c.length = 8)
    ∧ (∀ c ∈ split_by_n s 8, 1 ≤ c.length ∧ c.length ≤ 8)
    ∧ (s ≠ [] → ∃ cl, (split_by_n s 8).getLast? = some cl
        ∧ 1 ≤ cl.length ∧ cl.length ≤ 8) := by
  rw [split_by_n_eq_chunks8]
  have hmem : ∀ c ∈ chunks8 s, 1 ≤ c.length ∧ c.length ≤ 8 := by
    intro c hc
    exact ⟨List.length_pos.mpr (mem_chunks8_ne_nil hc),
      mem_chunks8_length_le hc⟩
  refine ⟨chunks8_flatten s, chunks8_dropLast_length, hmem, ?_⟩
  intro hs
  have hne : chunks8 s ≠ [] := fun h0 => hs ((chunks8_eq_nil_iff s).mp h0)
  refine ⟨(chunks8 s).getLast hne, List.getLast?_eq_getLast _ hne, ?_⟩
  exact hmem _ (List.getLast_mem hne)

/-- C10 witness: the properties evaluated on the concrete string "ABC". -/
theorem c10_split_props_witness :
    ("ABC").toList ≠ [] ∧
      ∃ cl, (split_by_n ("ABC").toList 8).getLast? = some cl
        ∧ 1 ≤ cl.length ∧ cl.length ≤ 8 :=
  ⟨by decide, (c10_split_props ("ABC").toList).2.2.2 (by decide)⟩

/-- C9: the converter is deterministic — runs on equal input line
sequences produce equal output bytes and equal failure status (the
embedding consumes nothing besides the input). -/
theorem c9_deterministic (i1 i2 : List (List Char)) (h : i1 = i2) :
    mainOut i1 = mainOut i2 ∧ mainErr i1 = mainErr i2 := by
  rw [h]
  exact ⟨rfl, rfl⟩

/-- C9 witness: determinism at a concrete input. -/
theorem c9_deterministic_witness :
    mainOut [("AB").toList] = mainOut [("AB").toList]
    ∧ mainErr [("AB").toList] = mainErr [("AB").toList] :=
  c9_deterministic [("AB").toList] [("AB").toList] rfl

/-- C7: empty input yields exactly the header and no integers, with no
error; a line that strips to the empty string yields zero chunks and zero
integers, without error, and leaves the rest of the run unchanged. -/
theorem c7_empty_ok (l : List Char) (ls : List (List Char))
    (h : pyStrip l = []) :
    processLines [] = ([], none)
    ∧ mainOut [] = headerText
    ∧ lineChunks l = []
    ∧ processLines (l :: ls) = processLines ls := by
  have hchunks : lineChunks l = [] := by
    rw [lineChunks, h]
    rfl
  refine ⟨rfl, ?_, hchunks, ?_⟩
  · simp [mainOut, processLines, outIntsText]
  · rw [processLines, hchunks]
    show ([] ++ (processLines ls).1, (processLines ls).2) = processLines ls
    simp

/-- C7 witness: a whitespace-only line produces nothing and is skipped. -/
theorem c7_empty_ok_witness :
    pyStrip ("  ").toList = []
    ∧ processLines [("  ").toList, ("AB").toList]
        = processLines [("AB").toList] :=
  ⟨by decide, (c7_empty_ok ("  ").toList [("AB").toList] (by decide)).2.2.2⟩

/-- C2: for a valid hex input line of length `n`, the run emits exactly
`⌈n / 8⌉` integers for it, the chunks concatenate back to the line
(non-overlapping, in order), and all chunks but possibly the last have
length exactly 8. -/
theorem c2_chunk_count (l : List Char) (h : ∀ c ∈ l, isHexDig c = true) :
    (processLines [l]).1.length = (l.length + 7) / 8
    ∧ (processLines [l]).2 = none
    ∧ (lineChunks l).flatten = l
    ∧ (∀ c ∈ (lineChunks l).dropLast, c.length = 8) := by
  have hspace : ∀ c ∈ l, isPySpace c = false :=
    fun c hc => (hexChar_props (h c hc)).2.1
  have hstrip : pyStrip l = l := pyStrip_no_space l hspace
  have hhex : ∀ c ∈ pyStrip l, isHexDig c = true := by
    rw [hstrip]
    exact h
  have hline := processChunks_hexline l hhex
  have hchunks : lineChunks l = chunks8 l := by
    rw [lineChunks, hstrip, split_by_n_eq_chunks8]
  refine ⟨?_, ?_, ?_, ?_⟩
  · rw [processLines_singleton, hline]
    simp only [List.length_map]
    rw [hchunks, chunks8_length]
  · rw [processLines_singleton, hline]
  · rw [hchunks, chunks8_flatten]
  · rw [hchunks]
    exact chunks8_dropLast_length

/-- C2 witness: a 9-character hex line yields ⌈9/8⌉ = 2 integers. -/
theorem c2_chunk_count_witness :
    (∀ c ∈ ("123456780").toList, isHexDig c = true)
    ∧ (processLines [("123456780").toList]).1.length
        = (("123456780").toList.length + 7) / 8 :=
  ⟨by decide, (c2_chunk_count ("123456780").toList (by decide)).1⟩

/-- C1: for hex input lines, in input order, the program emits — one per
output line, in chunk order — the base-16 value of every 8-character-wise
chunk of the stripped line, case-insensitively; the listed examples
"0000000A" ↦ 10, "FFFFFFFF" ↦ 4294967295 and "ABC" ↦ 2748 are instances
(see the witness). -/
theorem c1_line_conversion (lines : List (List Char))
    (h : ∀ l ∈ lines, ∀ c ∈ pyStrip l, isHexDig c = true) :
    (processLines lines).1
      = (lines.map (fun l =>
          (lineChunks l).map (fun c => (specHexValue c : Int)))).flatten
    ∧ (processLines lines).2 = none
    ∧ (∀ c : List Char, (∀ ch ∈ c, isHexDig ch = true) →
        specHexValue (c.map Char.toLower) = specHexValue c) := by
  have hmain := processLines_hex lines h
  refine ⟨by rw [hmain], by rw [hmain], ?_⟩
  intro c hc
  unfold specHexValue
  rw [List.map_map]
  congr 1
  apply congrArg
  apply List.map_congr_left
  intro ch hch
  exact (hexChar_toLower (hc ch hch)).2

/-- C1 witness: the three example lines of the spec produce exactly
10, 4294967295 and 2748, in order. -/
theorem c1_line_conversion_witness :
    (∀ l ∈ [("0000000A").toList, ("FFFFFFFF").toList, ("ABC").toList],
      ∀ c ∈ pyStrip l, isHexDig c = true)
    ∧ (processLines
        [("0000000A").toList, ("FFFFFFFF").toList, ("ABC").toList]).1
        = [10, 4294967295, 2748] := by
  have h : ∀ l ∈ [("0000000A").toList, ("FFFFFFFF").toList, ("ABC").toList],
      ∀ c ∈ pyStrip l, isHexDig c = true := by decide
  refine ⟨h, ?_⟩
  rw [(c1_line_conversion _ h).1]
  decide

/-- C3: the header block is written exactly once, first, verbatim (banner,
generator line with seed 0, `type: d`, `numbit: 32`, then one blank line),
before any integer and regardless of input — the remainder of the output
contains no `#`, and for empty input the output is exactly the header. -/
theorem c3_header_first (lines : List (List Char)) :
    ∃ rest, mainOut lines
        = ('#' :: List.replicate 66 '=')
          ++ '\n' :: ("# generator ryangeiger  seed = 0").toList
          ++ '\n' :: ('#' :: List.replicate 66 '=')
          ++ ("\ntype: d\nnumbit: 32\n\n").toList
          ++ rest
      ∧ (∀ c ∈ rest, c ≠ '#')
      ∧ (lines = [] → rest = []) := by
  refine ⟨outIntsText (processLines lines).1, ?_, outIntsText_chars _, ?_⟩
  · rw [mainOut, headerText, bannerLine]
  · intro h0
    subst h0
    rfl

/-- C3 witness: on empty input the output is exactly the verbatim header
block. -/
theorem c3_header_first_witness :
    mainOut []
      = ('#' :: List.replicate 66 '=')
        ++ '\n' :: ("# generator ryangeiger  seed = 0").toList
        ++ '\n' :: ('#' :: List.replicate 66 '=')
        ++ ("\ntype: d\nnumbit: 32\n\n").toList := by
  obtain ⟨rest, h1, _, h3⟩ := c3_header_first []
  rw [h1, h3 rfl, List.append_nil]

/-- C4 counterexample: the chunk "0xAB" contains the character `x`, which
is outside the hex digit alphabet, yet the run does not abort: it emits
the integer 171 for that chunk. -/
theorem c4_counterexample :
    ('x' ∈ ("0xAB").toList ∧ isHexDig 'x' = false)
    ∧ processLines [("0xAB").toList] = ([171], none) := by
  decide

/-- C4 amended: a chunk containing a character outside the alphabet the
underlying `int(_, 16)` parser accepts (hex digits, whitespace, a sign,
`x`/`X`) fails to convert, the run aborts there and no integer is emitted
for that chunk; chunks consisting only of hex digits never raise. -/
theorem c4_amended (c : List Char) (cs : List (List Char)) :
    ((∃ ch ∈ c, isHexDig ch = false ∧ isPySpace ch = false
        ∧ ch ≠ '+' ∧ ch ≠ '-' ∧ ch ≠ 'x' ∧ ch ≠ 'X') →
      pyInt16 c = none ∧ processChunks (c :: cs) = ([], some c))
    ∧ (c ≠ [] → (∀ ch ∈ c, isHexDig ch = true) →
        pyInt16 c = some ((hexVal c : Int))) := by
  constructor
  · rintro ⟨ch, hch, hhex, hsp, h1, h2, h3, h4⟩
    have hnone : pyInt16 c = none := by
      cases hv : pyInt16 c with
      | none => rfl
      | some v =>
        rcases pyInt16_some_chars hv ch hch with h | h | h | h | h | h
        · rw [hsp] at h
          exact Bool.noConfusion h
        · rw [hhex] at h
          exact Bool.noConfusion h
        · exact absurd h h1
        · exact absurd h h2
        · exact absurd h h3
        · exact absurd h h4
    refine ⟨hnone, ?_⟩
    rw [processChunks, hnone]
  · exact fun hne hhex => pyInt16_hex hne hhex

/-- C4 witness: the example line of the spec, "12G45678" fails to convert and
emits nothing. -/
theorem c4_amended_witness :
    pyInt16 ("12G45678").toList = none
    ∧ processChunks [("12G45678").toList] = ([], some (("12G45678").toList)) :=
  (c4_amended ("12G45678").toList []).1 ⟨'G', by decide, by decide⟩

/-- C5 counterexample: for the line " 123456780" (leading space), the
chunks the program processes are not the chunks of the line with only its
trailing whitespace removed — `strip()` removes the leading space too,
shifting every chunk boundary. -/
theorem c5_counterexample :
    lineChunks (" 123456780").toList
      ≠ split_by_n (specRStrip (" 123456780").toList) 8 := by
  decide

/-- C5 amended: exactly the leading *and* trailing whitespace of a line is
stripped before chunking: the processed chunk sequence is that of a core
substring of the line, flanked by all-whitespace margins, itself neither
starting nor ending with whitespace (interior whitespace is kept and
subject to hex parsing). -/
theorem c5_amended (l : List Char) :
    ∃ core pre suf,
      lineChunks l = split_by_n core 8
      ∧ l = pre ++ core ++ suf
      ∧ (∀ c ∈ pre, isPySpace c = true)
      ∧ (∀ c ∈ suf, isPySpace c = true)
      ∧ (∀ x, core.head? = some x → isPySpace x = false)
      ∧ (∀ x, core.getLast? = some x → isPySpace x = false) := by
  obtain ⟨pre, suf, h1, h2, h3⟩ := pyStrip_decomp l
  exact ⟨pyStrip l, pre, suf, rfl, h3, h1, h2, pyStrip_head l,
    pyStrip_getLast l⟩

/-- C5 witness: the amended statement at the concrete line " 1A ". -/
theorem c5_amended_witness :
    ∃ core pre suf,
      lineChunks (" 1A ").toList = split_by_n core 8
      ∧ (" 1A ").toList = pre ++ core ++ suf
      ∧ (∀ c ∈ pre, isPySpace c = true)
      ∧ (∀ c ∈ suf, isPySpace c = true)
      ∧ (∀ x, core.head? = some x → isPySpace x = false)
      ∧ (∀ x, core.getLast? = some x → isPySpace x = false) :=
  c5_amended (" 1A ").toList

/-- C6: an uncaught parse failure terminates the run immediately with the
failing chunk reported (non-zero exit): the output holds the header, the
integers of all fully processed earlier lines and of the earlier chunks
of the failing line — nothing of the input after the failure (`post`,
`cs2`) is processed, and output written before the failure is unchanged. -/
theorem c6_abort (pre post : List (List Char)) (l : List Char)
    (cs1 cs2 : List (List Char)) (c : List Char)
    (hpre : ∀ x ∈ pre, (processChunks (lineChunks x)).2 = none)
    (hsplit : lineChunks l = cs1 ++ c :: cs2)
    (h1 : ∀ x ∈ cs1, pyInt16 x ≠ none)
    (hc : pyInt16 c = none) :
    processLines (pre ++ l :: post)
      = ((pre.map (fun x => (processChunks (lineChunks x)).1)).flatten
          ++ cs1.map (fun x => (pyInt16 x).getD 0), some c)
    ∧ mainOut (pre ++ l :: post)
      = headerText ++ outIntsText
          ((pre.map (fun x => (processChunks (lineChunks x)).1)).flatten
            ++ cs1.map (fun x => (pyInt16 x).getD 0))
    ∧ mainErr (pre ++ l :: post) = some c := by
  have hline : processChunks (lineChunks l)
      = (cs1.map (fun x => (pyInt16 x).getD 0), some c) := by
    rw [hsplit]
    exact processChunks_append_fail cs1 c cs2 h1 hc
  have hfail : processLines (l :: post)
      = (cs1.map (fun x => (pyInt16 x).getD 0), some c) := by
    rw [processLines, hline]
  have hall := processLines_ok_append pre (l :: post) hpre
  rw [hfail] at hall
  refine ⟨hall, ?_, ?_⟩
  · rw [mainOut, hall]
  · rw [mainErr, hall]

/-- C6 witness: with lines "FF", "12G45678", "AA", the run emits 255,
fails on chunk "12G45678", and never reaches "AA". -/
theorem c6_abort_witness :
    processLines [("FF").toList, ("12G45678").toList, ("AA").toList]
      = ([255], some (("12G45678").toList)) := by
  have h := c6_abort [("FF").toList] [("AA").toList] ("12G45678").toList
    [] [] ("12G45678").toList (by decide) (by decide) (by decide) (by decide)
  exact h.1.trans (by decide)

/-- C8: every chunk of valid hex digits converts successfully to a value
`v` with `0 ≤ v < 2^32`; its output text is the plain decimal rendering,
with no zero-padding (no leading `'0'` unless the value is zero). -/
theorem c8_value_range (l c : List Char) (hm : c ∈ lineChunks l)
    (hhex : ∀ ch ∈ c, isHexDig ch = true) :
    ∃ v : Int, pyInt16 c = some v ∧ 0 ≤ v ∧ v < 2 ^ 32
      ∧ pyIntStr v = decDigits v.toNat
      ∧ (v ≠ 0 → ∀ x, (pyIntStr v).head? = some x → x ≠ '0') := by
  have hc8 : c ∈ chunks8 (pyStrip l) := by
    rw [lineChunks, split_by_n_eq_chunks8] at hm
    exact hm
  have hne := mem_chunks8_ne_nil hc8
  have hlen := mem_chunks8_length_le hc8
  have hpos : (0 : Int) ≤ (hexVal c : Int) := Int.ofNat_nonneg _
  have hnotlt : ¬((hexVal c : Int) < 0) := not_lt.mpr hpos
  refine ⟨(hexVal c : Int), pyInt16_hex hne hhex, hpos, ?_, ?_, ?_⟩
  · have h1 := hexVal_lt c hhex
    have h2 : (16 : Nat) ^ c.length ≤ 16 ^ 8 :=
      Nat.pow_le_pow_right (by omega) hlen
    have h3 : hexVal c < 2 ^ 32 := by
      calc hexVal c < 16 ^ c.length := h1
        _ ≤ 16 ^ 8 := h2
        _ = 2 ^ 32 := by norm_num
    exact_mod_cast h3
  · rw [pyIntStr, if_neg hnotlt]
  · intro hv0 x hx
    rw [pyIntStr, if_neg hnotlt] at hx
    refine decDigits_head_ne_zero _ ?_ x hx
    intro h0
    exact hv0 (le_antisymm (Int.toNat_eq_zero.mp h0) hpos)

/-- C8 witness: the chunk "0000000A" of line "0000000A". -/
theorem c8_value_range_witness :
    ("0000000A").toList ∈ lineChunks (("0000000A").toList)
    ∧ ∃ v : Int, pyInt16 ("0000000A").toList = some v ∧ 0 ≤ v ∧ v < 2 ^ 32
      ∧ pyIntStr v = decDigits v.toNat
      ∧ (v ≠ 0 → ∀ x, (pyIntStr v).head? = some x → x ≠ '0') :=
  ⟨by decide, c8_value_range ("0000000A").toList ("0000000A").toList
    (by decide) (by decide)⟩

end GeigerRNG
